import Mathlib

/-!
Shallow embedding of the Durak rules engine
(`packages/engine/src/game.ts`) and verification of the spec's claims
about it.

Conventions of the embedding:
* TypeScript arrays become `List`; `undefined`-able fields become `Option`.
* The deck keeps the source's array order: `Array.pop` (drawing) takes the
  LAST element of the list.
* `attacker` / `defender` are `Fin 2`: the source types them as `number`
  but only ever stores 0 or 1 (initialisation sets 0/1 and the only update
  swaps them), and `players` is a two-element tuple.
* Card equality in the source is value equality on suit+rank
  (`c.suit === card.suit && c.rank === card.rank`), which is exactly
  `DecidableEq Card` here.
* `Math.random`-based shuffling is modelled by taking the already-shuffled
  deck as an explicit parameter of `startGameFromDeck`.
* `Array.prototype.sort` (stable) with the hand comparator is modelled by
  insertion sort.  The comparator never returns 0 on distinct cards (its
  three criteria pin the card down completely, see `keyNat`), so every
  sorted permutation of a hand is the same list and stability is
  unobservable.
* `'♠'.localeCompare('♥')` etc. is modelled as comparison of the suit
  symbols' code points (U+2660 ♠, U+2663 ♣, U+2665 ♥, U+2666 ♦).
-/

namespace Durak

inductive Suit where
  | spades | hearts | diamonds | clubs
deriving DecidableEq, Repr, Fintype

inductive Rank where
  | r6 | r7 | r8 | r9 | r10 | rJ | rQ | rK | rA
deriving DecidableEq, Repr, Fintype

structure Card where
  suit : Suit
  rank : Rank
deriving DecidableEq, Repr, Fintype

inductive PlayerType where
  | human | bot
deriving DecidableEq, Repr

structure Player where
  id : String
  name : String
  type : PlayerType
  hand : List Card
deriving DecidableEq, Repr

structure TableSlot where
  attack : Card
  defend : Option Card
deriving DecidableEq, Repr

inductive Phase where
  | attack | defend | throw | finished
deriving DecidableEq, Repr

structure GameState where
  deck : List Card
  trumpSuit : Suit
  trumpCard : Card
  player0 : Player
  player1 : Player
  attacker : Fin 2
  defender : Fin 2
  table : List TableSlot
  phase : Phase
  winnerId : Option String
  message : Option String
deriving DecidableEq, Repr

/-- `RANK_ORDER` of the source. -/
def rankOrder : Rank → Nat
  | .r6 => 0 | .r7 => 1 | .r8 => 2 | .r9 => 3 | .r10 => 4
  | .rJ => 5 | .rQ => 6 | .rK => 7 | .rA => 8

/-- `makeDeck()`: the 36 cards in the source's fixed suit/rank enumeration
order. -/
def makeDeck : List Card :=
  [Suit.spades, Suit.hearts, Suit.diamonds, Suit.clubs].flatMap fun s =>
    [Rank.r6, Rank.r7, Rank.r8, Rank.r9, Rank.r10,
     Rank.rJ, Rank.rQ, Rank.rK, Rank.rA].map fun r => ⟨s, r⟩

/-- `isTrump(card, trumpSuit)`. -/
def isTrump (card : Card) (trumpSuit : Suit) : Bool :=
  card.suit = trumpSuit

/-- `canBeat(attack, defend, trumpSuit)`. -/
def canBeat (attack defend : Card) (trumpSuit : Suit) : Bool :=
  if attack.suit = defend.suit then
    rankOrder defend.rank > rankOrder attack.rank
  else if isTrump defend trumpSuit && !isTrump attack trumpSuit then
    true
  else
    false

/-- Unicode code point of a suit symbol; models
`String.prototype.localeCompare` on the one-character suit strings as
code-point comparison. -/
def suitCode : Suit → Nat
  | .spades => 0x2660 | .clubs => 0x2663 | .hearts => 0x2665 | .diamonds => 0x2666

/-- The hand/bot comparator of the source (used in `sortHand` and in every
`botDecide` branch): trump after non-trump, then suit, then rank. -/
def cardCmp (trumpSuit : Suit) (a b : Card) : Int :=
  let ta := isTrump a trumpSuit
  let tb := isTrump b trumpSuit
  if ta ≠ tb then (if ta then 1 else -1)
  else if a.suit ≠ b.suit then (suitCode a.suit : Int) - (suitCode b.suit : Int)
  else (rankOrder a.rank : Int) - (rankOrder b.rank : Int)

/-- The non-strict order induced by `cardCmp` (a JS sort comparator sorts
ascending: `a` may precede `b` iff `cmp a b ≤ 0`). -/
def cardR (trumpSuit : Suit) : Card → Card → Prop :=
  fun a b => cardCmp trumpSuit a b ≤ 0

instance (t : Suit) : DecidableRel (cardR t) :=
  fun a b => inferInstanceAs (Decidable (cardCmp t a b ≤ 0))

/-- `sortHand(hand, trumpSuit)`: a stable sort by `cardCmp`. -/
def sortHand (hand : List Card) (trumpSuit : Suit) : List Card :=
  hand.insertionSort (cardR trumpSuit)

/-- Per-player access: `state.players[i]` for `i : Fin 2`. -/
def GameState.player (s : GameState) (i : Fin 2) : Player :=
  if i = 0 then s.player0 else s.player1

/-- In-place hand mutation `state.players[i].hand = h`. -/
def GameState.setHand (s : GameState) (i : Fin 2) (h : List Card) : GameState :=
  if i = 0 then { s with player0 := { s.player0 with hand := h } }
  else { s with player1 := { s.player1 with hand := h } }

/-- One player's leg of the `refillHands` while-loop:
`while (hand.length < 6 && deck.length > 0) hand.push(deck.pop())`.
The fuel argument is instantiated with `deck.length`, which bounds the
number of iterations (each one shortens the deck). -/
def refillLoop : Nat → List Card → List Card → List Card × List Card
  | 0, deck, hand => (deck, hand)
  | fuel + 1, deck, hand =>
    if hand.length < 6 then
      match deck.getLast? with
      | none => (deck, hand)
      | some c => refillLoop fuel deck.dropLast (hand ++ [c])
    else (deck, hand)

/-- One iteration of the `for (const idx of order)` loop in `refillHands`:
draw for player `idx` until their hand has 6 cards or the deck is empty. -/
def refillStep (s : GameState) (idx : Fin 2) : GameState :=
  let dh := refillLoop s.deck.length s.deck (s.player idx).hand
  { s.setHand idx dh.2 with deck := dh.1 }

/-- `refillHands(state)`: draw up to 6 for the attacker, then the defender,
then re-sort both hands for presentation.  (`refillStep` never changes
`defender`, so reading it from the intermediate state matches the source's
`order` array captured up front.) -/
def refillHands (s : GameState) : GameState :=
  let s1 := refillStep s s.attacker
  let s2 := refillStep s1 s1.defender
  { s2 with
    player0 := { s2.player0 with hand := sortHand s2.player0.hand s2.trumpSuit },
    player1 := { s2.player1 with hand := sortHand s2.player1.hand s2.trumpSuit } }

/-- `startGame(humanId, botId)`, with the `shuffle(makeDeck())` result
passed in as the `deck` parameter (the only use of randomness in the
source).  The `getLastD` default is never used: the engine always passes a
36-card deck. -/
def startGameFromDeck (deck : List Card) (humanId botId : String) : GameState :=
  let trumpCard := deck.getLastD ⟨.spades, .r6⟩
  refillHands {
    deck := deck
    trumpSuit := trumpCard.suit
    trumpCard := trumpCard
    player0 := ⟨humanId, "You", .human, []⟩
    player1 := ⟨botId, "Bot", .bot, []⟩
    attacker := 0
    defender := 1
    table := []
    phase := .attack
    winnerId := none
    message := none }

/-- `ranksOnTable(state)`: the ranks of every attack and defend card on the
table.  The source builds a `Set` and only queries membership, so a list
with `contains` is an equivalent model. -/
def ranksOnTable (s : GameState) : List Rank :=
  s.table.flatMap fun slot => slot.attack.rank :: (slot.defend.map (·.rank)).toList

/-- `legalAttacks(state, playerIndex)`. -/
def legalAttacks (s : GameState) (playerIndex : Fin 2) : List Card :=
  if (s.phase ≠ .attack ∧ s.phase ≠ .throw) ∨ playerIndex ≠ s.attacker then []
  else
    let hand := (s.player playerIndex).hand
    if s.table.length = 0 then hand
    else hand.filter fun c => (ranksOnTable s).contains c.rank

/-- `canAddAttack(state)`. -/
def canAddAttack (s : GameState) : Bool :=
  let openCount := s.table.length
  let defenderHand := (s.player s.defender).hand.length
  if openCount ≥ defenderHand then false
  else
    (s.player s.attacker).hand.any (fun c => (ranksOnTable s).contains c.rank)
      || s.table.length = 0

/-- `legalDefenses(state, playerIndex, attackIndex)`. -/
def legalDefenses (s : GameState) (playerIndex : Fin 2) (attackIndex : Nat) : List Card :=
  if s.phase ≠ .defend ∨ playerIndex ≠ s.defender then []
  else
    match s.table[attackIndex]? with
    | none => []
    | some slot =>
      if slot.defend.isSome then []
      else (s.player playerIndex).hand.filter fun c => canBeat slot.attack c s.trumpSuit

/-- `removeCardFromHand`: remove the first card equal (by suit and rank) to
`card`; `none` when absent (the source returns `false` and leaves the hand
unchanged). -/
def removeFirst (hand : List Card) (card : Card) : Option (List Card) :=
  match hand with
  | [] => none
  | c :: rest =>
    if c = card then some rest
    else (removeFirst rest card).map (c :: ·)

/-- `state.table[i].defend = card` (the source only executes this when the
slot exists and is open; out-of-range indices are left as a no-op). -/
def setDefend (table : List TableSlot) (i : Nat) (card : Card) : List TableSlot :=
  match table, i with
  | [], _ => []
  | slot :: rest, 0 => { slot with defend := some card } :: rest
  | slot :: rest, n + 1 => slot :: setDefend rest n card

/-- `moveTableToDefender(state)`: push every slot's attack card and (when
present) defend card into the defender's hand, then clear the table. -/
def moveTableToDefender (s : GameState) : GameState :=
  let extra := s.table.flatMap fun slot => slot.attack :: slot.defend.toList
  let s1 := s.setHand s.defender ((s.player s.defender).hand ++ extra)
  { s1 with table := [] }

/-- `checkFinish(state)`. -/
def checkFinish (s : GameState) : GameState :=
  let deckEmpty := s.deck.length = 0
  let p0Empty := s.player0.hand.length = 0
  let p1Empty := s.player1.hand.length = 0
  if deckEmpty ∧ (p0Empty ∨ p1Empty) then
    if p0Empty ∧ p1Empty then
      { s with phase := .finished, winnerId := none, message := some "Ничья" }
    else if p0Empty then
      { s with phase := .finished, winnerId := some s.player0.id
               message := some (s.player0.name ++ " победил") }
    else
      { s with phase := .finished, winnerId := some s.player1.id
               message := some (s.player1.name ++ " победил") }
  else s

/-- `advanceIfNeeded(state)`: the `canAddAttack` branch of the source is an
empty comment block, so the function only runs the finish check. -/
def advanceIfNeeded (s : GameState) : GameState :=
  checkFinish s

inductive Action where
  | attack (card : Card)
  | defend (attackIndex : Nat) (card : Card)
  | take
  | done
deriving DecidableEq, Repr

structure ApplyResult where
  ok : Bool
  error : Option String
  state : GameState
deriving DecidableEq, Repr

/-- `state.players.findIndex((p) => p.id === playerId)`. -/
def findPlayerIdx (s : GameState) (playerId : String) : Option (Fin 2) :=
  if s.player0.id = playerId then some 0
  else if s.player1.id = playerId then some 1
  else none

/-- The `action.kind === 'attack'` branch of `applyAction`. -/
def applyAttack (s : GameState) (me : Fin 2) (card : Card) : ApplyResult :=
  if me ≠ s.attacker then ⟨false, some "Сейчас не ваш ход атаковать", s⟩
  else if ¬ (legalAttacks s me).contains card then
    ⟨false, some "Этой картой нельзя атаковать сейчас", s⟩
  else if s.phase = .throw ∧ ¬ canAddAttack s then
    ⟨false, some "Докидывать больше нельзя (лимит по руке защитника)", s⟩
  else
    match removeFirst (s.player me).hand card with
    | none => ⟨false, some "Карты нет в руке", s⟩
    | some h =>
      let s1 := s.setHand me h
      let s2 := { s1 with table := s1.table ++ [TableSlot.mk card none] }
      let s3 :=
        if s2.phase ≠ .throw then
          { s2 with phase := .defend, message := some "Атакуйте ещё или ждите защиту" }
        else
          { s2 with phase := .throw
                    message := some "Докидывайте доступные карты или завершите ход" }
      ⟨true, none, advanceIfNeeded s3⟩

/-- The `action.kind === 'defend'` branch of `applyAction`. -/
def applyDefend (s : GameState) (me : Fin 2) (attackIndex : Nat) (card : Card) :
    ApplyResult :=
  if me ≠ s.defender then ⟨false, some "Сейчас не ваш ход защищаться", s⟩
  else if ¬ (legalDefenses s me attackIndex).contains card then
    ⟨false, some "Этой картой нельзя побить атаку", s⟩
  else
    match removeFirst (s.player me).hand card with
    | none => ⟨false, some "Карты нет в руке", s⟩
    | some h =>
      let s1 := s.setHand me h
      let s2 := { s1 with table := setDefend s1.table attackIndex card }
      let allDefended := s2.table.all fun sl => sl.defend.isSome
      let s3 := { s2 with
        phase := if allDefended then .attack else .defend
        message := some (if allDefended then "Можно добавить атаку или завершить ход"
                         else "Защититесь от оставшихся атак") }
      ⟨true, none, advanceIfNeeded s3⟩

/-- The `action.kind === 'take'` branch of `applyAction`. -/
def applyTake (s : GameState) (me : Fin 2) : ApplyResult :=
  if me ≠ s.defender then ⟨false, some "Только защищающийся может взять", s⟩
  else
    ⟨true, none,
      { s with phase := .throw
               message := some "Защитник берёт. Атакующий может докинуть карты и затем завершить ход" }⟩

/-- The `action.kind === 'done'` branch of `applyAction`. -/
def applyDone (s : GameState) (me : Fin 2) : ApplyResult :=
  if me ≠ s.attacker then ⟨false, some "Только атакующий завершает ход", s⟩
  else if s.phase = .attack then
    let allDefended := 0 < s.table.length ∧ s.table.all fun sl => sl.defend.isSome
    if ¬ allDefended then
      ⟨false, some "Есть непобитые атаки. Либо добавьте, либо защитник пусть возьмёт", s⟩
    else
      let s1 := refillHands { s with table := [] }
      let s2 := { s1 with attacker := s1.defender, defender := s1.attacker }
      let s3 := { s2 with phase := .attack, message := some "Ход завершён. Роли сменились" }
      ⟨true, none, checkFinish s3⟩
  else if s.phase = .throw then
    let s1 := refillHands (moveTableToDefender s)
    let s2 := { s1 with phase := .attack, message := some "Защитник взял. Атакуйте снова" }
    ⟨true, none, checkFinish s2⟩
  else ⟨false, some "Сейчас нельзя завершить ход", s⟩

/-- `applyAction(state, playerId, action)`: the main reducer.  The source's
final `Неизвестное действие` return is unreachable because `Action` is a
closed union. -/
def applyAction (s : GameState) (playerId : String) (a : Action) : ApplyResult :=
  if s.phase = .finished then ⟨false, some "Игра завершена", s⟩
  else
    match findPlayerIdx s playerId with
    | none => ⟨false, some "Игрок не найден", s⟩
    | some me =>
      match a with
      | .attack card => applyAttack s me card
      | .defend attackIndex card => applyDefend s me attackIndex card
      | .take => applyTake s me
      | .done => applyDone s me

/-- `state.players.findIndex((p) => p.type === 'bot')`. -/
def findBotIdx (s : GameState) : Option (Fin 2) :=
  if s.player0.type = .bot then some 0
  else if s.player1.type = .bot then some 1
  else none

/-- `legals.slice().sort(cmp)[0]`: the head of the sorted legal list.
`none` exactly when the list is empty, which lets each `botDecide` branch
fuse the source's `legals.length === 0` test with its indexing. -/
def lowestBy (trumpSuit : Suit) (legals : List Card) : Option Card :=
  (legals.insertionSort (cardR trumpSuit)).head?

/-- `botDecide(state)`. -/
def botDecide (s : GameState) : Option Action :=
  match findBotIdx s with
  | none => none
  | some botIdx =>
    if s.phase = .attack ∧ botIdx = s.attacker then
      match lowestBy s.trumpSuit (legalAttacks s botIdx) with
      | none => some .done
      | some lowest => some (.attack lowest)
    else if s.phase = .defend ∧ botIdx = s.defender then
      match s.table.findIdx? (fun sl => sl.defend.isNone) with
      | none => none
      | some firstOpen =>
        match lowestBy s.trumpSuit (legalDefenses s botIdx firstOpen) with
        | none => some .take
        | some lowest => some (.defend firstOpen lowest)
    else if s.phase = .throw ∧ botIdx = s.attacker then
      if ¬ canAddAttack s then some .done
      else
        match lowestBy s.trumpSuit (legalAttacks s botIdx) with
        | none => some .done
        | some lowest => some (.attack lowest)
    else none

/-- All cards lying on the table (each slot's attack card, then its defend
card when present). -/
def tableCards (table : List TableSlot) : List Card :=
  table.flatMap fun slot => slot.attack :: slot.defend.toList

/-- Every card currently in play: draw pile, both hands, and the table. -/
def cardsInPlay (s : GameState) : List Card :=
  s.deck ++ s.player0.hand ++ s.player1.hand ++ tableCards s.table

/-- Fold a list of `(playerId, action)` requests through `applyAction`,
keeping the returned state whether or not the action was accepted (the
session host does the same). -/
def applyTrace (s : GameState) (tr : List (String × Action)) : GameState :=
  tr.foldl (fun st pa => (applyAction st pa.1 pa.2).state) s

/-- The twelve cards dealt to the players in the concrete game used by the
counterexamples: positions 24-29 (defender's draw) and 30-35 (attacker's
draw, position 35 doubling as the trump card) of the shuffled deck. -/
def cexSpecial : List Card :=
  [⟨.diamonds, .rK⟩, ⟨.hearts, .rK⟩, ⟨.clubs, .rA⟩, ⟨.clubs, .r7⟩, ⟨.diamonds, .r7⟩,
   ⟨.hearts, .r7⟩, ⟨.diamonds, .rA⟩, ⟨.hearts, .rA⟩, ⟨.clubs, .r6⟩, ⟨.diamonds, .r6⟩,
   ⟨.hearts, .r6⟩, ⟨.spades, .r7⟩]

/-- A concrete shuffled deck (a permutation of `makeDeck`): the 24 cards
that stay in the draw pile, followed by the twelve dealt cards. -/
def cexDeck : List Card :=
  (makeDeck.filter fun c => ¬ cexSpecial.contains c) ++ cexSpecial

/-- Did every action of the trace get accepted (`ok = true`), applying each
to the state produced by the previous one? -/
def traceAccepted (s : GameState) : List (String × Action) → Bool
  | [] => true
  | pa :: rest =>
    let r := applyAction s pa.1 pa.2
    r.ok && traceAccepted r.state rest

/-- Attack with 6♥, beat it with 7♥, and close the round: the shortest run
that retires cards from play. -/
def cexTraceC1 : List (String × Action) :=
  [("p", Action.attack ⟨.hearts, .r6⟩), ("b", Action.defend 0 ⟨.hearts, .r7⟩),
   ("p", Action.done)]

/-- Three attacks, each beaten, shrinking the defender's hand to 3 while
the table grows to 3 slots — all still in the `attack` phase. -/
def cexTraceC2 : List (String × Action) :=
  [("p", Action.attack ⟨.hearts, .r6⟩), ("b", Action.defend 0 ⟨.hearts, .r7⟩),
   ("p", Action.attack ⟨.diamonds, .r6⟩), ("b", Action.defend 1 ⟨.diamonds, .r7⟩),
   ("p", Action.attack ⟨.clubs, .r6⟩), ("b", Action.defend 2 ⟨.clubs, .r7⟩)]

/-- A reachable state in the `throw` phase: the human attacks with 6♥ and
the bot declares take. -/
def throwState : GameState :=
  applyTrace (startGameFromDeck cexDeck "p" "b")
    [("p", Action.attack ⟨.hearts, .r6⟩), ("b", Action.take)]

/-- A reachable state in the `defend` phase with the bot defending. -/
def botState : GameState :=
  applyTrace (startGameFromDeck cexDeck "p" "b") [("p", Action.attack ⟨.hearts, .r6⟩)]

/-! ## General lemmas about the embedded operations -/

lemma fin2_cases (i : Fin 2) : i = 0 ∨ i = 1 := by
  omega

lemma setHand_deck (s : GameState) (i : Fin 2) (h : List Card) :
    (s.setHand i h).deck = s.deck := by
  unfold GameState.setHand; split <;> rfl

lemma setHand_attacker (s : GameState) (i : Fin 2) (h : List Card) :
    (s.setHand i h).attacker = s.attacker := by
  unfold GameState.setHand; split <;> rfl

lemma setHand_defender (s : GameState) (i : Fin 2) (h : List Card) :
    (s.setHand i h).defender = s.defender := by
  unfold GameState.setHand; split <;> rfl

lemma setHand_table (s : GameState) (i : Fin 2) (h : List Card) :
    (s.setHand i h).table = s.table := by
  unfold GameState.setHand; split <;> rfl

lemma setHand_phase (s : GameState) (i : Fin 2) (h : List Card) :
    (s.setHand i h).phase = s.phase := by
  unfold GameState.setHand; split <;> rfl

lemma setHand_trumpSuit (s : GameState) (i : Fin 2) (h : List Card) :
    (s.setHand i h).trumpSuit = s.trumpSuit := by
  unfold GameState.setHand; split <;> rfl

lemma refillStep_attacker (s : GameState) (i : Fin 2) :
    (refillStep s i).attacker = s.attacker := by
  unfold refillStep; rw [setHand_attacker]

lemma refillStep_defender (s : GameState) (i : Fin 2) :
    (refillStep s i).defender = s.defender := by
  unfold refillStep; rw [setHand_defender]

lemma refillStep_table (s : GameState) (i : Fin 2) :
    (refillStep s i).table = s.table := by
  unfold refillStep; rw [setHand_table]

lemma refillStep_phase (s : GameState) (i : Fin 2) :
    (refillStep s i).phase = s.phase := by
  unfold refillStep; rw [setHand_phase]

lemma refillStep_trumpSuit (s : GameState) (i : Fin 2) :
    (refillStep s i).trumpSuit = s.trumpSuit := by
  unfold refillStep; rw [setHand_trumpSuit]

lemma refillHands_attacker (s : GameState) :
    (refillHands s).attacker = s.attacker := by
  unfold refillHands
  simp only [refillStep_attacker]

lemma refillHands_defender (s : GameState) :
    (refillHands s).defender = s.defender := by
  unfold refillHands
  simp only [refillStep_defender]

lemma refillHands_table (s : GameState) :
    (refillHands s).table = s.table := by
  unfold refillHands
  simp only [refillStep_table]

lemma refillHands_phase (s : GameState) :
    (refillHands s).phase = s.phase := by
  unfold refillHands
  simp only [refillStep_phase]

lemma checkFinish_table (s : GameState) :
    (checkFinish s).table = s.table := by
  unfold checkFinish
  dsimp only
  split
  · split
    · rfl
    · split <;> rfl
  · rfl

lemma checkFinish_attacker (s : GameState) :
    (checkFinish s).attacker = s.attacker := by
  unfold checkFinish
  dsimp only
  split
  · split
    · rfl
    · split <;> rfl
  · rfl

lemma checkFinish_defender (s : GameState) :
    (checkFinish s).defender = s.defender := by
  unfold checkFinish
  dsimp only
  split
  · split
    · rfl
    · split <;> rfl
  · rfl

lemma checkFinish_deck (s : GameState) :
    (checkFinish s).deck = s.deck := by
  unfold checkFinish
  dsimp only
  split
  · split
    · rfl
    · split <;> rfl
  · rfl

lemma checkFinish_player0_hand (s : GameState) :
    (checkFinish s).player0.hand = s.player0.hand := by
  unfold checkFinish
  dsimp only
  split
  · split
    · rfl
    · split <;> rfl
  · rfl

lemma checkFinish_player1_hand (s : GameState) :
    (checkFinish s).player1.hand = s.player1.hand := by
  unfold checkFinish
  dsimp only
  split
  · split
    · rfl
    · split <;> rfl
  · rfl

lemma cardsInPlay_checkFinish (s : GameState) :
    cardsInPlay (checkFinish s) = cardsInPlay s := by
  unfold cardsInPlay
  rw [checkFinish_deck, checkFinish_player0_hand, checkFinish_player1_hand,
    checkFinish_table]

/-- Removing a card that is found yields the hand minus one copy of that
card, as multisets. -/
lemma removeFirst_ms (hand : List Card) (card : Card) (h : List Card)
    (hrem : removeFirst hand card = some h) :
    (hand : Multiset Card) = card ::ₘ (h : Multiset Card) := by
  induction hand generalizing h with
  | nil => exact Option.noConfusion hrem
  | cons c rest ih =>
    unfold removeFirst at hrem
    split at hrem
    · rename_i heq
      injection hrem with hrem
      subst hrem; subst heq
      rfl
    · cases hr : removeFirst rest card with
      | none => rw [hr] at hrem; simp at hrem
      | some h' =>
        rw [hr] at hrem
        simp at hrem
        subst hrem
        have := ih h' hr
        rw [← Multiset.cons_coe, ← Multiset.cons_coe, this, Multiset.cons_swap]

lemma removeFirst_isSome_of_mem (hand : List Card) (card : Card)
    (h : card ∈ hand) : ∃ h', removeFirst hand card = some h' := by
  induction hand with
  | nil => simp at h
  | cons c rest ih =>
    by_cases hc : c = card
    · exact ⟨rest, by simp [removeFirst, hc]⟩
    · have hmem : card ∈ rest := by
        rcases List.mem_cons.mp h with h1 | h1
        · exact absurd h1.symm hc
        · exact h1
      rcases ih hmem with ⟨h', hh'⟩
      exact ⟨c :: h', by simp [removeFirst, hc, hh']⟩

/-- The drawing loop conserves cards: deck plus hand is invariant. -/
lemma refillLoop_ms (fuel : Nat) : ∀ deck hand : List Card,
    ((refillLoop fuel deck hand).1 : Multiset Card) + ((refillLoop fuel deck hand).2 : Multiset Card)
      = (deck : Multiset Card) + (hand : Multiset Card) := by
  induction fuel with
  | zero => intro deck hand; rfl
  | succ n ih =>
    intro deck hand
    unfold refillLoop
    split
    · cases hd : deck.getLast? with
      | none => simp
      | some c =>
        simp only [hd]
        rw [ih]
        have hdeck : deck.dropLast ++ [c] = deck :=
          List.dropLast_append_getLast? c hd
        conv_rhs => rw [← hdeck]
        rw [← Multiset.coe_add, ← Multiset.coe_add]
        abel
    · rfl

lemma sortHand_ms (hand : List Card) (t : Suit) :
    ((sortHand hand t : List Card) : Multiset Card) = (hand : Multiset Card) := by
  rw [Multiset.coe_eq_coe]
  exact List.perm_insertionSort _ hand

/-- Defending an existing open slot adds exactly the defending card to the
table's cards. -/
lemma tableCards_setDefend (table : List TableSlot) (i : Nat) (card : Card)
    (slot : TableSlot) (hget : table[i]? = some slot) (hopen : slot.defend = none) :
    (tableCards (setDefend table i card)).Perm (card :: tableCards table) := by
  induction table generalizing i with
  | nil => simp at hget
  | cons sl rest ih =>
    cases i with
    | zero =>
      simp only [List.getElem?_cons_zero, Option.some.injEq] at hget
      subst hget
      unfold setDefend tableCards
      simp only [List.flatMap_cons, hopen, Option.toList_some, Option.toList_none,
        List.append_nil, List.nil_append, List.cons_append]
      exact List.Perm.swap card sl.attack _
    | succ n =>
      simp only [List.getElem?_cons_succ] at hget
      have hih := ih n hget
      unfold setDefend tableCards
      simp only [List.flatMap_cons]
      unfold tableCards at hih
      exact (List.Perm.append_left _ hih).trans List.perm_middle

lemma ms_shift (a b h0 d h1 tc : Multiset Card) (key : a + b = d + h1) :
    a + h0 + b + tc = d + h0 + h1 + tc := by
  have h : a + h0 + b + tc = a + b + h0 + tc := by abel
  rw [h, key]
  abel

lemma cardsInPlay_refillStep (s : GameState) (i : Fin 2) :
    ((cardsInPlay (refillStep s i) : List Card) : Multiset Card)
      = ((cardsInPlay s : List Card) : Multiset Card) := by
  rcases fin2_cases i with hi | hi <;> subst hi
  · have key := refillLoop_ms s.deck.length s.deck s.player0.hand
    unfold refillStep GameState.setHand GameState.player cardsInPlay
    simp only [reduceIte, if_pos rfl]
    simp only [← Multiset.coe_add]
    rw [key]
  · have key := refillLoop_ms s.deck.length s.deck s.player1.hand
    unfold refillStep GameState.setHand GameState.player cardsInPlay
    simp only [reduceIte, Fin.one_eq_zero_iff, OfNat.ofNat_ne_one, if_false]
    simp only [← Multiset.coe_add]
    exact ms_shift _ _ _ _ _ _ key

lemma cardsInPlay_refillHands (s : GameState) :
    ((cardsInPlay (refillHands s) : List Card) : Multiset Card)
      = ((cardsInPlay s : List Card) : Multiset Card) := by
  unfold refillHands
  dsimp only
  rw [show cardsInPlay { refillStep (refillStep s s.attacker) (refillStep s s.attacker).defender with
        player0 := { (refillStep (refillStep s s.attacker) (refillStep s s.attacker).defender).player0 with
          hand := sortHand (refillStep (refillStep s s.attacker) (refillStep s s.attacker).defender).player0.hand
            (refillStep (refillStep s s.attacker) (refillStep s s.attacker).defender).trumpSuit }
        player1 := { (refillStep (refillStep s s.attacker) (refillStep s s.attacker).defender).player1 with
          hand := sortHand (refillStep (refillStep s s.attacker) (refillStep s s.attacker).defender).player1.hand
            (refillStep (refillStep s s.attacker) (refillStep s s.attacker).defender).trumpSuit } }
      = (refillStep (refillStep s s.attacker) (refillStep s s.attacker).defender).deck
        ++ sortHand (refillStep (refillStep s s.attacker) (refillStep s s.attacker).defender).player0.hand
            (refillStep (refillStep s s.attacker) (refillStep s s.attacker).defender).trumpSuit
        ++ sortHand (refillStep (refillStep s s.attacker) (refillStep s s.attacker).defender).player1.hand
            (refillStep (refillStep s s.attacker) (refillStep s s.attacker).defender).trumpSuit
        ++ tableCards (refillStep (refillStep s s.attacker) (refillStep s s.attacker).defender).table
      from rfl]
  simp only [← Multiset.coe_add, sortHand_ms]
  have h1 := cardsInPlay_refillStep (refillStep s s.attacker) (refillStep s s.attacker).defender
  have h2 := cardsInPlay_refillStep s s.attacker
  unfold cardsInPlay at h1 h2
  simp only [← Multiset.coe_add] at h1 h2
  rw [h1, h2]
  unfold cardsInPlay
  simp only [← Multiset.coe_add]

lemma cardsInPlay_moveTableToDefender (s : GameState) :
    ((cardsInPlay (moveTableToDefender s) : List Card) : Multiset Card)
      = ((cardsInPlay s : List Card) : Multiset Card) := by
  rcases fin2_cases s.defender with hd | hd <;>
    · unfold moveTableToDefender GameState.setHand GameState.player cardsInPlay tableCards
      rw [hd]
      simp only [reduceIte, if_pos rfl, Fin.one_eq_zero_iff, OfNat.ofNat_ne_one, if_false]
      simp only [List.flatMap_nil, List.append_nil, ← Multiset.coe_add]
      abel

lemma tableCards_append (t1 t2 : List TableSlot) :
    tableCards (t1 ++ t2) = tableCards t1 ++ tableCards t2 := by
  unfold tableCards
  exact List.flatMap_append t1 t2 _

lemma cardsInPlay_attack_core (s : GameState) (me : Fin 2) (card : Card) (h : List Card)
    (hrem : removeFirst (s.player me).hand card = some h) :
    ((cardsInPlay { s.setHand me h with
        table := (s.setHand me h).table ++ [TableSlot.mk card none] } : List Card) : Multiset Card)
      = ((cardsInPlay s : List Card) : Multiset Card) := by
  have hh := removeFirst_ms _ _ _ hrem
  rcases fin2_cases me with hm | hm <;> subst hm <;>
    unfold GameState.player at hh <;>
    unfold cardsInPlay GameState.setHand <;>
    simp only [reduceIte, if_pos rfl, Fin.one_eq_zero_iff, OfNat.ofNat_ne_one, if_false] <;>
    simp only [reduceIte, if_pos rfl, Fin.one_eq_zero_iff, OfNat.ofNat_ne_one, if_false] at hh <;>
    simp only [tableCards_append, ← Multiset.coe_add] <;>
    rw [hh, ← Multiset.singleton_add] <;>
    rw [show ((tableCards [TableSlot.mk card none] : List Card) : Multiset Card) = {card} from rfl] <;>
    abel

lemma cardsInPlay_applyAttack_le (s : GameState) (me : Fin 2) (card : Card) :
    ((cardsInPlay (applyAttack s me card).state : List Card) : Multiset Card)
      ≤ ((cardsInPlay s : List Card) : Multiset Card) := by
  unfold applyAttack
  split
  · exact le_refl _
  split
  · exact le_refl _
  split
  · exact le_refl _
  cases hrem : removeFirst (s.player me).hand card with
  | none => simp only [hrem]; exact le_refl _
  | some h =>
    simp only [hrem]
    apply le_of_eq
    unfold advanceIfNeeded
    rw [cardsInPlay_checkFinish]
    split
    · exact cardsInPlay_attack_core s me card h hrem
    · exact cardsInPlay_attack_core s me card h hrem

lemma legalDefenses_contains_facts (s : GameState) (me : Fin 2) (i : Nat) (card : Card)
    (h : (legalDefenses s me i).contains card = true) :
    ∃ slot, s.table[i]? = some slot ∧ slot.defend = none := by
  unfold legalDefenses at h
  split at h
  · simp at h
  · split at h
    · simp at h
    · rename_i slot heq
      split at h
      · simp at h
      · rename_i hsome
        exact ⟨slot, heq, Option.not_isSome_iff_eq_none.mp hsome⟩

lemma cardsInPlay_defend_core (s : GameState) (me : Fin 2) (i : Nat) (card : Card)
    (h : List Card) (hrem : removeFirst (s.player me).hand card = some h)
    (slot : TableSlot) (hget : s.table[i]? = some slot) (hopen : slot.defend = none) :
    ((cardsInPlay { s.setHand me h with
        table := setDefend (s.setHand me h).table i card } : List Card) : Multiset Card)
      = ((cardsInPlay s : List Card) : Multiset Card) := by
  have hh := removeFirst_ms _ _ _ hrem
  have htc : ((tableCards (setDefend s.table i card) : List Card) : Multiset Card)
      = ((card :: tableCards s.table : List Card) : Multiset Card) :=
    Multiset.coe_eq_coe.mpr (tableCards_setDefend s.table i card slot hget hopen)
  rcases fin2_cases me with hm | hm <;> subst hm <;>
    unfold GameState.player at hh <;>
    unfold cardsInPlay GameState.setHand <;>
    simp only [reduceIte, if_pos rfl, Fin.one_eq_zero_iff, OfNat.ofNat_ne_one, if_false] <;>
    simp only [reduceIte, if_pos rfl, Fin.one_eq_zero_iff, OfNat.ofNat_ne_one, if_false] at hh <;>
    simp only [← Multiset.coe_add] <;>
    rw [htc, ← Multiset.cons_coe, ← Multiset.singleton_add, hh,
      ← Multiset.singleton_add] <;>
    abel

lemma cardsInPlay_applyDefend_le (s : GameState) (me : Fin 2) (i : Nat) (card : Card) :
    ((cardsInPlay (applyDefend s me i card).state : List Card) : Multiset Card)
      ≤ ((cardsInPlay s : List Card) : Multiset Card) := by
  unfold applyDefend
  split
  · exact le_refl _
  split
  · exact le_refl _
  rename_i hcont
  rw [not_not] at hcont
  rcases legalDefenses_contains_facts s me i card hcont with ⟨slot, hget, hopen⟩
  cases hrem : removeFirst (s.player me).hand card with
  | none => simp only [hrem]; exact le_refl _
  | some h =>
    simp only [hrem]
    apply le_of_eq
    unfold advanceIfNeeded
    rw [cardsInPlay_checkFinish]
    exact cardsInPlay_defend_core s me i card h hrem slot hget hopen

lemma cardsInPlay_applyTake_le (s : GameState) (me : Fin 2) :
    ((cardsInPlay (applyTake s me).state : List Card) : Multiset Card)
      ≤ ((cardsInPlay s : List Card) : Multiset Card) := by
  unfold applyTake
  split
  · exact le_refl _
  · exact le_refl _

lemma cardsInPlay_applyDone_le (s : GameState) (me : Fin 2) :
    ((cardsInPlay (applyDone s me).state : List Card) : Multiset Card)
      ≤ ((cardsInPlay s : List Card) : Multiset Card) := by
  unfold applyDone
  split
  · exact le_refl _
  split
  · -- phase = attack
    dsimp only
    split
    · exact le_refl _
    · dsimp only
      rw [cardsInPlay_checkFinish]
      rw [show cardsInPlay { refillHands { s with table := [] } with
            attacker := (refillHands { s with table := [] }).defender
            defender := (refillHands { s with table := [] }).attacker
            phase := Phase.attack, message := some "Ход завершён. Роли сменились" }
          = cardsInPlay (refillHands { s with table := [] }) from rfl]
      rw [cardsInPlay_refillHands]
      unfold cardsInPlay tableCards
      simp only [List.flatMap_nil, List.append_nil, ← Multiset.coe_add]
      have : (0 : Multiset Card) ≤ ((s.table.flatMap fun slot => slot.attack :: slot.defend.toList : List Card) : Multiset Card) :=
        Multiset.zero_le _
      calc (s.deck : Multiset Card) + ↑s.player0.hand + ↑s.player1.hand
          ≤ ↑s.deck + ↑s.player0.hand + ↑s.player1.hand
            + ((s.table.flatMap fun slot => slot.attack :: slot.defend.toList : List Card) : Multiset Card) :=
            le_add_of_nonneg_right this
        _ = _ := by abel
  split
  · -- phase = throw
    dsimp only
    apply le_of_eq
    rw [cardsInPlay_checkFinish]
    rw [show cardsInPlay { refillHands (moveTableToDefender s) with
          phase := Phase.attack, message := some "Защитник взял. Атакуйте снова" }
        = cardsInPlay (refillHands (moveTableToDefender s)) from rfl]
    rw [cardsInPlay_refillHands, cardsInPlay_moveTableToDefender]
  · exact le_refl _

/-- Cards in play never increase across any `applyAction` call (and only
decrease on the retire-the-table `done` path). -/
lemma cardsInPlay_applyAction_le (s : GameState) (pid : String) (a : Action) :
    ((cardsInPlay (applyAction s pid a).state : List Card) : Multiset Card)
      ≤ ((cardsInPlay s : List Card) : Multiset Card) := by
  unfold applyAction
  split
  · exact le_refl _
  · cases hfind : findPlayerIdx s pid with
    | none => simp only [hfind]; exact le_refl _
    | some me =>
      simp only [hfind]
      cases a with
      | attack card => exact cardsInPlay_applyAttack_le s me card
      | defend i card => exact cardsInPlay_applyDefend_le s me i card
      | take => exact cardsInPlay_applyTake_le s me
      | done => exact cardsInPlay_applyDone_le s me

lemma cardsInPlay_startGame (d : List Card) (hid bid : String) :
    ((cardsInPlay (startGameFromDeck d hid bid) : List Card) : Multiset Card)
      = (d : Multiset Card) := by
  unfold startGameFromDeck
  dsimp only
  rw [cardsInPlay_refillHands]
  unfold cardsInPlay tableCards
  simp

lemma cardsInPlay_applyTrace_le (tr : List (String × Action)) : ∀ s : GameState,
    ((cardsInPlay (applyTrace s tr) : List Card) : Multiset Card)
      ≤ ((cardsInPlay s : List Card) : Multiset Card) := by
  induction tr with
  | nil => intro s; exact le_refl _
  | cons pa rest ih =>
    intro s
    unfold applyTrace
    simp only [List.foldl_cons]
    exact le_trans (ih ((applyAction s pa.1 pa.2).state))
      (cardsInPlay_applyAction_le s pa.1 pa.2)

lemma applyAttack_ok_or_eq (s : GameState) (me : Fin 2) (card : Card) :
    (applyAttack s me card).ok = true ∨ (applyAttack s me card).state = s := by
  unfold applyAttack
  split
  · right; rfl
  split
  · right; rfl
  split
  · right; rfl
  cases hrem : removeFirst (s.player me).hand card with
  | none => simp [hrem]
  | some h => simp [hrem]

lemma applyDefend_ok_or_eq (s : GameState) (me : Fin 2) (i : Nat) (card : Card) :
    (applyDefend s me i card).ok = true ∨ (applyDefend s me i card).state = s := by
  unfold applyDefend
  split
  · right; rfl
  split
  · right; rfl
  cases hrem : removeFirst (s.player me).hand card with
  | none => simp [hrem]
  | some h => simp [hrem]

lemma applyTake_ok_or_eq (s : GameState) (me : Fin 2) :
    (applyTake s me).ok = true ∨ (applyTake s me).state = s := by
  unfold applyTake
  split
  · right; rfl
  · left; rfl

lemma applyDone_ok_or_eq (s : GameState) (me : Fin 2) :
    (applyDone s me).ok = true ∨ (applyDone s me).state = s := by
  unfold applyDone
  split
  · right; rfl
  split
  · dsimp only
    split
    · right; rfl
    · left; rfl
  split
  · left; rfl
  · right; rfl

/-- Every rejection path of `applyAction` returns the input state
untouched. -/
lemma applyAction_ok_or_eq (s : GameState) (pid : String) (a : Action) :
    (applyAction s pid a).ok = true ∨ (applyAction s pid a).state = s := by
  unfold applyAction
  split
  · right; rfl
  cases hfind : findPlayerIdx s pid with
  | none => simp [hfind]
  | some me =>
    simp only [hfind]
    cases a with
    | attack card => exact applyAttack_ok_or_eq s me card
    | defend i card => exact applyDefend_ok_or_eq s me i card
    | take => exact applyTake_ok_or_eq s me
    | done => exact applyDone_ok_or_eq s me

/-! ## Claim theorems -/

/-- C1, counterexample: starting from the shuffled deck `cexDeck`, the
accepted trace attack-6♥ / defend-7♥ / done reaches a state whose
deck+hands+table multiset is no longer the full 36-card deck (the two
table cards were retired), refuting the claimed equality for all reachable
states. -/
theorem C1_counterexample :
    cexDeck.Perm makeDeck
    ∧ traceAccepted (startGameFromDeck cexDeck "p" "b") cexTraceC1 = true
    ∧ ((cardsInPlay (applyTrace (startGameFromDeck cexDeck "p" "b") cexTraceC1)
          : List Card) : Multiset Card)
        ≠ ((makeDeck : List Card) : Multiset Card) := by decide

/-- C1, amended: for every state reachable from `startGame` (with any
shuffled deck) by `applyAction` calls, the multiset union of the deck,
both hands and all table cards is a sub-multiset of the fixed 36-card deck
— no card is ever duplicated, but cards retired by `done` in the attack
phase leave the union. -/
theorem C1_card_conservation_sub (d : List Card) (hid bid : String)
    (hd : d.Perm makeDeck) (tr : List (String × Action)) :
    ((cardsInPlay (applyTrace (startGameFromDeck d hid bid) tr) : List Card) : Multiset Card)
      ≤ ((makeDeck : List Card) : Multiset Card) := by
  have h0 := cardsInPlay_startGame d hid bid
  have h1 := cardsInPlay_applyTrace_le tr (startGameFromDeck d hid bid)
  rw [h0] at h1
  exact h1.trans (le_of_eq (Multiset.coe_eq_coe.mpr hd))

theorem C1_card_conservation_sub_witness :
    makeDeck.Perm makeDeck
    ∧ ((cardsInPlay (applyTrace (startGameFromDeck makeDeck "p" "b") cexTraceC1)
          : List Card) : Multiset Card)
        ≤ ((makeDeck : List Card) : Multiset Card) :=
  ⟨List.Perm.refl _, C1_card_conservation_sub makeDeck "p" "b" (List.Perm.refl _) cexTraceC1⟩

/-- C2, counterexample: in the `attack` phase the throw-limit is never
consulted, so after three defended attacks (defender hand down to 3) a
fourth attack is still accepted, making the table 4 slots against a
defender hand of 3 at the moment of placement. -/
theorem C2_counterexample :
    cexDeck.Perm makeDeck
    ∧ traceAccepted (startGameFromDeck cexDeck "p" "b") cexTraceC2 = true
    ∧ (applyAction (applyTrace (startGameFromDeck cexDeck "p" "b") cexTraceC2) "p"
         (Action.attack ⟨Suit.spades, Rank.r7⟩)).ok = true
    ∧ ((applyTrace (startGameFromDeck cexDeck "p" "b") cexTraceC2).player
         (applyTrace (startGameFromDeck cexDeck "p" "b") cexTraceC2).defender).hand.length = 3
    ∧ (applyAction (applyTrace (startGameFromDeck cexDeck "p" "b") cexTraceC2) "p"
         (Action.attack ⟨Suit.spades, Rank.r7⟩)).state.table.length = 4 := by decide

lemma canAddAttack_lt (s : GameState) (h : canAddAttack s = true) :
    s.table.length < (s.player s.defender).hand.length := by
  unfold canAddAttack at h
  dsimp only at h
  split at h
  · cases h
  · rename_i hlt
    omega

lemma applyAttack_spec (s : GameState) (me : Fin 2) (card : Card) :
    (applyAttack s me card).ok = true →
    ((applyAttack s me card).state.table = s.table ++ [TableSlot.mk card none]
      ∧ me = s.attacker ∧ (s.phase = Phase.throw → canAddAttack s = true)) := by
  unfold applyAttack
  split
  · intro h; cases h
  split
  · intro h; cases h
  split
  · intro h; cases h
  rename_i hme hleg hthrow
  cases hrem : removeFirst (s.player me).hand card with
  | none => intro h; simp [hrem] at h
  | some h =>
    intro _
    simp only [hrem]
    refine ⟨?_, not_not.mp hme, ?_⟩
    · unfold advanceIfNeeded
      rw [checkFinish_table]
      split <;> simp [setHand_table]
    · intro hph
      by_contra hca
      exact hthrow ⟨hph, fun hc => hca hc⟩

/-- C2, amended: the defender-hand bound is enforced only in the `throw`
phase: whenever an attack is accepted there, the resulting number of table
slots stays within the defender's hand size at the moment of placement
(in the `attack` phase no such bound is checked, see the
counterexample). -/
theorem C2_throw_attack_bound (s : GameState) (pid : String) (card : Card)
    (hphase : s.phase = Phase.throw)
    (hok : (applyAction s pid (Action.attack card)).ok = true) :
    (applyAction s pid (Action.attack card)).state.table.length
      ≤ (s.player s.defender).hand.length := by
  unfold applyAction at hok ⊢
  rw [if_neg (by rw [hphase]; simp)] at hok ⊢
  cases hfind : findPlayerIdx s pid with
  | none => simp [hfind] at hok
  | some me =>
    simp only [hfind] at hok ⊢
    rcases applyAttack_spec s me card hok with ⟨htab, _, hthrow⟩
    rw [htab]
    have := canAddAttack_lt s (hthrow hphase)
    simp only [List.length_append, List.length_cons, List.length_nil]
    omega

theorem C2_throw_attack_bound_witness :
    throwState.phase = Phase.throw
    ∧ (applyAction throwState "p" (Action.attack ⟨Suit.diamonds, Rank.r6⟩)).ok = true
    ∧ (applyAction throwState "p" (Action.attack ⟨Suit.diamonds, Rank.r6⟩)).state.table.length
        ≤ (throwState.player throwState.defender).hand.length :=
  ⟨by decide, by decide,
    C2_throw_attack_bound throwState "p" ⟨Suit.diamonds, Rank.r6⟩ (by decide) (by decide)⟩

/-- C6: rejection purity — whenever `applyAction` reports `ok = false`,
the returned state is exactly the input state, on every rejection path. -/
theorem C6_rejection_purity (s : GameState) (pid : String) (a : Action)
    (h : (applyAction s pid a).ok = false) :
    (applyAction s pid a).state = s := by
  rcases applyAction_ok_or_eq s pid a with hok | heq
  · rw [hok] at h; cases h
  · exact heq

theorem C6_rejection_purity_witness :
    (applyAction (startGameFromDeck makeDeck "p" "b") "b" Action.done).ok = false
    ∧ (applyAction (startGameFromDeck makeDeck "p" "b") "b" Action.done).state
        = startGameFromDeck makeDeck "p" "b" :=
  ⟨by decide, C6_rejection_purity _ _ _ (by decide)⟩

/-- C7: terminal stability — in the `finished` phase every action of every
player is rejected and the state is returned unchanged, so no transition
leaves the `finished` phase. -/
theorem C7_terminal_stability (s : GameState) (pid : String) (a : Action)
    (h : s.phase = Phase.finished) :
    (applyAction s pid a).ok = false ∧ (applyAction s pid a).state = s := by
  unfold applyAction
  rw [if_pos h]
  exact ⟨rfl, rfl⟩

theorem C7_terminal_stability_witness :
    ({ startGameFromDeck makeDeck "p" "b" with phase := Phase.finished }
        : GameState).phase = Phase.finished
    ∧ (applyAction { startGameFromDeck makeDeck "p" "b" with phase := Phase.finished }
        "p" Action.take).ok = false
    ∧ (applyAction { startGameFromDeck makeDeck "p" "b" with phase := Phase.finished }
        "p" Action.take).state
        = { startGameFromDeck makeDeck "p" "b" with phase := Phase.finished } :=
  ⟨rfl, (C7_terminal_stability _ "p" Action.take rfl).1,
    (C7_terminal_stability _ "p" Action.take rfl).2⟩

lemma moveTableToDefender_attacker (s : GameState) :
    (moveTableToDefender s).attacker = s.attacker := by
  unfold moveTableToDefender
  rw [show ({ s.setHand s.defender ((s.player s.defender).hand
      ++ s.table.flatMap fun slot => slot.attack :: slot.defend.toList) with
      table := [] } : GameState).attacker
    = (s.setHand s.defender ((s.player s.defender).hand
      ++ s.table.flatMap fun slot => slot.attack :: slot.defend.toList)).attacker from rfl]
  rw [setHand_attacker]

lemma moveTableToDefender_defender (s : GameState) :
    (moveTableToDefender s).defender = s.defender := by
  unfold moveTableToDefender
  rw [show ({ s.setHand s.defender ((s.player s.defender).hand
      ++ s.table.flatMap fun slot => slot.attack :: slot.defend.toList) with
      table := [] } : GameState).defender
    = (s.setHand s.defender ((s.player s.defender).hand
      ++ s.table.flatMap fun slot => slot.attack :: slot.defend.toList)).defender from rfl]
  rw [setHand_defender]

lemma player_setHand_self (s : GameState) (i : Fin 2) (h : List Card) :
    ((s.setHand i h).player i).hand = h := by
  rcases fin2_cases i with hi | hi <;> subst hi <;>
    unfold GameState.setHand GameState.player <;>
    simp

/-- C3, counterexample: in the `attack` phase with an empty table no slot
lacks a defend card, yet `done` is rejected (the source also requires
`table.length > 0`), refuting the claimed "rejected iff some slot is
undefended". -/
theorem C3_counterexample :
    (startGameFromDeck makeDeck "p" "b").phase = Phase.attack
    ∧ findPlayerIdx (startGameFromDeck makeDeck "p" "b") "p"
        = some (startGameFromDeck makeDeck "p" "b").attacker
    ∧ (¬ ∃ slot ∈ (startGameFromDeck makeDeck "p" "b").table, slot.defend = none)
    ∧ (applyAction (startGameFromDeck makeDeck "p" "b") "p" Action.done).ok = false := by
  decide

/-- C3, amended: `done` in the attack phase (acting player = attacker) is
rejected iff the table is empty or some slot is undefended; when accepted,
the result is exactly: clear the table, refill hands (attacker first, with
the pre-swap roles), swap attacker and defender, reset the phase to
attack, then run the finish check. -/
theorem C3_done_attack (s : GameState) (pid : String)
    (hphase : s.phase = Phase.attack)
    (hfind : findPlayerIdx s pid = some s.attacker) :
    ((applyAction s pid Action.done).ok = false
        ↔ (s.table = [] ∨ ∃ slot ∈ s.table, slot.defend = none))
    ∧ ((applyAction s pid Action.done).ok = true →
        (applyAction s pid Action.done).state
          = checkFinish { refillHands { s with table := [] } with
              attacker := s.defender, defender := s.attacker,
              phase := Phase.attack, message := some "Ход завершён. Роли сменились" }) := by
  unfold applyAction
  rw [if_neg (by rw [hphase]; simp), hfind]
  dsimp only
  unfold applyDone
  rw [if_neg (by simp), if_pos hphase]
  dsimp only
  split
  · rename_i hnd
    refine ⟨⟨fun _ => ?_, fun _ => rfl⟩, fun h => by cases h⟩
    rw [not_and_or] at hnd
    rcases hnd with h1 | h2
    · left
      have : s.table.length = 0 := by omega
      exact List.length_eq_zero.mp this
    · right
      rw [List.all_eq_true] at h2
      push_neg at h2
      rcases h2 with ⟨x, hx, hp⟩
      exact ⟨x, hx, Option.not_isSome_iff_eq_none.mp (by simpa using hp)⟩
  · rename_i hnd
    rw [not_not] at hnd
    obtain ⟨hpos, hall⟩ := hnd
    constructor
    · constructor
      · intro h; simp at h
      · intro hr
        rcases hr with htab | ⟨slot, hmem, hnone⟩
        · rw [htab] at hpos; simp at hpos
        · have := List.all_eq_true.mp hall slot hmem
          rw [hnone] at this
          simp at this
    · intro _
      show checkFinish _ = _
      rw [refillHands_defender, refillHands_attacker]

theorem C3_done_attack_witness :
    ((applyTrace (startGameFromDeck cexDeck "p" "b") (cexTraceC1.take 2)).phase = Phase.attack)
    ∧ ((applyAction (applyTrace (startGameFromDeck cexDeck "p" "b") (cexTraceC1.take 2))
          "p" Action.done).ok = true →
        (applyAction (applyTrace (startGameFromDeck cexDeck "p" "b") (cexTraceC1.take 2))
          "p" Action.done).state
          = checkFinish { refillHands
              { applyTrace (startGameFromDeck cexDeck "p" "b") (cexTraceC1.take 2) with
                table := [] } with
              attacker := (applyTrace (startGameFromDeck cexDeck "p" "b") (cexTraceC1.take 2)).defender
              defender := (applyTrace (startGameFromDeck cexDeck "p" "b") (cexTraceC1.take 2)).attacker
              phase := Phase.attack, message := some "Ход завершён. Роли сменились" }) :=
  ⟨by decide,
    (C3_done_attack (applyTrace (startGameFromDeck cexDeck "p" "b") (cexTraceC1.take 2))
      "p" (by decide) (by decide)).2⟩

/-- C4: `done` in the throw phase (acting player = attacker) is always
accepted; all table cards (attack cards and present defend cards alike)
are appended to the defender's hand, the table is cleared, hands are
refilled, the roles do not swap, the phase is set back to attack, and the
finish check runs. -/
theorem C4_done_throw (s : GameState) (pid : String)
    (hphase : s.phase = Phase.throw)
    (hfind : findPlayerIdx s pid = some s.attacker) :
    (applyAction s pid Action.done).ok = true
    ∧ (applyAction s pid Action.done).state
        = checkFinish { refillHands (moveTableToDefender s) with
            phase := Phase.attack, message := some "Защитник взял. Атакуйте снова" }
    ∧ (applyAction s pid Action.done).state.attacker = s.attacker
    ∧ (applyAction s pid Action.done).state.defender = s.defender
    ∧ (applyAction s pid Action.done).state.table = []
    ∧ ((moveTableToDefender s).player s.defender).hand
        = (s.player s.defender).hand ++ tableCards s.table := by
  unfold applyAction
  rw [if_neg (by rw [hphase]; simp), hfind]
  dsimp only
  unfold applyDone
  rw [if_neg (by simp), if_neg (by rw [hphase]; simp), if_pos hphase]
  dsimp only
  refine ⟨rfl, rfl, ?_, ?_, ?_, ?_⟩
  · rw [checkFinish_attacker]
    show (refillHands (moveTableToDefender s)).attacker = s.attacker
    rw [refillHands_attacker, moveTableToDefender_attacker]
  · rw [checkFinish_defender]
    show (refillHands (moveTableToDefender s)).defender = s.defender
    rw [refillHands_defender, moveTableToDefender_defender]
  · rw [checkFinish_table]
    show (refillHands (moveTableToDefender s)).table = []
    rw [refillHands_table]
    unfold moveTableToDefender
    rfl
  · unfold moveTableToDefender
    rw [show ({ s.setHand s.defender ((s.player s.defender).hand
        ++ s.table.flatMap fun slot => slot.attack :: slot.defend.toList) with
        table := [] } : GameState).player s.defender
      = (s.setHand s.defender ((s.player s.defender).hand
        ++ s.table.flatMap fun slot => slot.attack :: slot.defend.toList)).player s.defender
      from rfl]
    rw [player_setHand_self]
    rfl

theorem C4_done_throw_witness :
    (applyAction throwState "p" Action.done).ok = true
    ∧ (applyAction throwState "p" Action.done).state.table = [] :=
  ⟨(C4_done_throw throwState "p" (by decide) (by decide)).1,
   (C4_done_throw throwState "p" (by decide) (by decide)).2.2.2.2.1⟩

/-- C5: the finish check ends the game (phase becomes finished) iff the
deck is empty and at least one hand is empty; with both hands empty the
winner is absent (draw), with exactly one empty hand that player's id is
the winner, and otherwise the state is returned unchanged. -/
theorem C5_finish_check (s : GameState) (hs : s.phase ≠ Phase.finished) :
    ((checkFinish s).phase = Phase.finished
        ↔ (s.deck = [] ∧ (s.player0.hand = [] ∨ s.player1.hand = [])))
    ∧ (s.deck = [] → s.player0.hand = [] → s.player1.hand = [] →
        (checkFinish s).winnerId = none)
    ∧ (s.deck = [] → s.player0.hand = [] → s.player1.hand ≠ [] →
        (checkFinish s).winnerId = some s.player0.id)
    ∧ (s.deck = [] → s.player1.hand = [] → s.player0.hand ≠ [] →
        (checkFinish s).winnerId = some s.player1.id)
    ∧ (¬ (s.deck = [] ∧ (s.player0.hand = [] ∨ s.player1.hand = [])) →
        checkFinish s = s) := by
  by_cases h1 : s.deck = [] <;> by_cases h2 : s.player0.hand = [] <;>
    by_cases h3 : s.player1.hand = [] <;>
    simp [checkFinish, h1, h2, h3, hs, List.length_eq_zero]

theorem C5_finish_check_witness :
    ({ startGameFromDeck makeDeck "p" "b" with deck := [] } : GameState).phase
        ≠ Phase.finished
    ∧ (¬ (({ startGameFromDeck makeDeck "p" "b" with deck := [] } : GameState).deck = []
          ∧ (({ startGameFromDeck makeDeck "p" "b" with deck := [] } : GameState).player0.hand = []
             ∨ ({ startGameFromDeck makeDeck "p" "b" with deck := [] } : GameState).player1.hand = [])) →
        checkFinish { startGameFromDeck makeDeck "p" "b" with deck := [] }
          = { startGameFromDeck makeDeck "p" "b" with deck := [] }) :=
  ⟨by decide,
    (C5_finish_check { startGameFromDeck makeDeck "p" "b" with deck := [] }
      (by decide)).2.2.2.2⟩

/-- C8: `take` by the defender in any non-finished phase is accepted and
changes nothing but the phase (set to throw) and the advisory message:
deck, both hands, table, roles, trump suit and trump card all stay
untouched. -/
theorem C8_take_frame (s : GameState) (pid : String)
    (hphase : s.phase ≠ Phase.finished)
    (hfind : findPlayerIdx s pid = some s.defender) :
    applyAction s pid Action.take
      = ⟨true, none,
          { s with phase := Phase.throw
                   message := some "Защитник берёт. Атакующий может докинуть карты и затем завершить ход" }⟩ := by
  unfold applyAction
  rw [if_neg hphase, hfind]
  dsimp only
  unfold applyTake
  rw [if_neg (by simp)]

theorem C8_take_frame_witness :
    botState.phase ≠ Phase.finished
    ∧ findPlayerIdx botState "b" = some botState.defender
    ∧ applyAction botState "b" Action.take
        = ⟨true, none,
            { botState with
                phase := Phase.throw
                message := some "Защитник берёт. Атакующий может докинуть карты и затем завершить ход" }⟩ :=
  ⟨by decide, by decide, C8_take_frame botState "b" (by decide) (by decide)⟩

/-- Packs the comparator's three lexicographic criteria (trump flag, suit
code, rank) into one natural number, for order reasoning. -/
def keyNat (t : Suit) (c : Card) : Nat :=
  (if isTrump c t then 1 else 0) * 2 ^ 40 + suitCode c.suit * 2 ^ 20 + rankOrder c.rank

lemma cardR_iff : ∀ (t : Suit) (a b : Card), cardR t a b ↔ keyNat t a ≤ keyNat t b := by
  decide

lemma cardR_refl (t : Suit) (a : Card) : cardR t a a := by
  rw [cardR_iff]

instance (t : Suit) : IsTotal Card (cardR t) :=
  ⟨fun a b => by rw [cardR_iff, cardR_iff]; omega⟩

instance (t : Suit) : IsTrans Card (cardR t) :=
  ⟨fun a b c hab hbc => by
    rw [cardR_iff] at hab hbc ⊢
    omega⟩

lemma lowestBy_eq_none (t : Suit) (l : List Card) :
    lowestBy t l = none ↔ l = [] := by
  unfold lowestBy
  rw [List.head?_eq_none_iff]
  constructor
  · intro h
    have hp := List.perm_insertionSort (cardR t) l
    rw [h] at hp
    exact hp.symm.eq_nil
  · intro h; subst h; rfl

/-- `sort(cmp)[0]` really is a comparator-least element of the list. -/
lemma lowestBy_spec (t : Suit) (l : List Card) (c : Card)
    (h : lowestBy t l = some c) : c ∈ l ∧ ∀ x ∈ l, cardR t c x := by
  unfold lowestBy at h
  cases hs : List.insertionSort (cardR t) l with
  | nil => rw [hs] at h; cases h
  | cons d rest =>
    rw [hs] at h
    injection h with h
    subst h
    have hperm := List.perm_insertionSort (cardR t) l
    rw [hs] at hperm
    have hsorted := List.sorted_insertionSort (cardR t) l
    rw [hs] at hsorted
    refine ⟨hperm.mem_iff.mp (List.mem_cons_self d rest), ?_⟩
    intro x hx
    rcases List.mem_cons.mp (hperm.mem_iff.mpr hx) with h1 | h1
    · subst h1; exact cardR_refl t x
    · exact (List.sorted_cons.mp hsorted).1 x h1

/-- C9: the bot policy.  With no bot seat it proposes nothing.  With the
bot attacking in the attack phase it proposes `done` exactly when no legal
attack exists and otherwise attacks with a comparator-least legal card; in
the throw phase it additionally proposes `done` when `canAddAttack` fails;
with the bot defending it finds the lowest-index open slot (proposing
nothing when every slot is defended), proposes `take` when that slot has
no legal defense and otherwise defends it with a comparator-least legal
card; in every other situation it proposes nothing. -/
theorem C9_bot_policy (s : GameState) :
    (findBotIdx s = none → botDecide s = none)
    ∧ ∀ b : Fin 2, findBotIdx s = some b →
      (((s.phase = Phase.attack ∧ b = s.attacker) →
         (legalAttacks s b = [] ∧ botDecide s = some Action.done)
         ∨ (∃ c, c ∈ legalAttacks s b ∧ (∀ x ∈ legalAttacks s b, cardR s.trumpSuit c x)
              ∧ botDecide s = some (Action.attack c)))
      ∧ ((s.phase = Phase.defend ∧ b = s.defender) →
         ((∀ slot ∈ s.table, slot.defend ≠ none) ∧ botDecide s = none)
         ∨ (∃ i slot, s.table[i]? = some slot ∧ slot.defend = none
              ∧ (∀ j, j < i → ∀ sl, s.table[j]? = some sl → sl.defend ≠ none)
              ∧ ((legalDefenses s b i = [] ∧ botDecide s = some Action.take)
                 ∨ (∃ c, c ∈ legalDefenses s b i
                      ∧ (∀ x ∈ legalDefenses s b i, cardR s.trumpSuit c x)
                      ∧ botDecide s = some (Action.defend i c)))))
      ∧ ((s.phase = Phase.throw ∧ b = s.attacker) →
         (canAddAttack s = false ∧ botDecide s = some Action.done)
         ∨ (canAddAttack s = true
            ∧ ((legalAttacks s b = [] ∧ botDecide s = some Action.done)
               ∨ (∃ c, c ∈ legalAttacks s b ∧ (∀ x ∈ legalAttacks s b, cardR s.trumpSuit c x)
                    ∧ botDecide s = some (Action.attack c)))))
      ∧ (¬ (s.phase = Phase.attack ∧ b = s.attacker) →
         ¬ (s.phase = Phase.defend ∧ b = s.defender) →
         ¬ (s.phase = Phase.throw ∧ b = s.attacker) →
         botDecide s = none)) := by
  constructor
  · intro h
    unfold botDecide
    rw [h]
  intro b hb
  unfold botDecide
  rw [hb]
  dsimp only
  refine ⟨?_, ?_, ?_, ?_⟩
  · rintro ⟨hph, hbeq⟩
    rw [if_pos ⟨hph, hbeq⟩]
    cases hl : lowestBy s.trumpSuit (legalAttacks s b) with
    | none =>
      exact Or.inl ⟨(lowestBy_eq_none _ _).mp hl, rfl⟩
    | some c =>
      rcases lowestBy_spec _ _ _ hl with ⟨hmem, hmin⟩
      exact Or.inr ⟨c, hmem, hmin, rfl⟩
  · rintro ⟨hph, hbeq⟩
    rw [if_neg (by rw [hph]; simp), if_pos ⟨hph, hbeq⟩]
    cases hf : s.table.findIdx? (fun sl => sl.defend.isNone) with
    | none =>
      refine Or.inl ⟨?_, rfl⟩
      intro slot hslot heq
      have hfalse := List.findIdx?_eq_none_iff.mp hf slot hslot
      rw [heq] at hfalse
      simp at hfalse
    | some i =>
      rcases List.findIdx?_eq_some_iff_getElem.mp hf with ⟨hlt, hp, hprev⟩
      have hget := List.getElem?_eq_getElem hlt
      refine Or.inr ⟨i, s.table.get ⟨i, hlt⟩, hget, Option.isNone_iff_eq_none.mp hp, ?_, ?_⟩
      · intro j hj sl hsl heq
        have hj2 : j < s.table.length := lt_trans hj hlt
        have hgj := List.getElem?_eq_getElem hj2
        rw [hgj] at hsl
        injection hsl with hsl
        subst hsl
        have hfalse := hprev j hj
        rw [heq] at hfalse
        simp at hfalse
      · dsimp only
        cases hl : lowestBy s.trumpSuit (legalDefenses s b i) with
        | none =>
          exact Or.inl ⟨(lowestBy_eq_none _ _).mp hl, rfl⟩
        | some c =>
          rcases lowestBy_spec _ _ _ hl with ⟨hmem, hmin⟩
          exact Or.inr ⟨c, hmem, hmin, rfl⟩
  · rintro ⟨hph, hbeq⟩
    rw [if_neg (by rw [hph]; simp), if_neg (by rw [hph]; simp), if_pos ⟨hph, hbeq⟩]
    by_cases hca : canAddAttack s = true
    · rw [if_neg (by simp [hca])]
      refine Or.inr ⟨hca, ?_⟩
      cases hl : lowestBy s.trumpSuit (legalAttacks s b) with
      | none =>
        exact Or.inl ⟨(lowestBy_eq_none _ _).mp hl, rfl⟩
      | some c =>
        rcases lowestBy_spec _ _ _ hl with ⟨hmem, hmin⟩
        exact Or.inr ⟨c, hmem, hmin, rfl⟩
    · have hca2 : canAddAttack s = false := by
        revert hca
        cases canAddAttack s <;> simp
      rw [if_pos (by simp [hca2])]
      exact Or.inl ⟨hca2, rfl⟩
  · intro h1 h2 h3
    rw [if_neg h1, if_neg h2, if_neg h3]

theorem C9_bot_policy_witness :
    ((∀ slot ∈ botState.table, slot.defend ≠ none) ∧ botDecide botState = none)
    ∨ (∃ i slot, botState.table[i]? = some slot ∧ slot.defend = none
         ∧ (∀ j, j < i → ∀ sl, botState.table[j]? = some sl → sl.defend ≠ none)
         ∧ ((legalDefenses botState 1 i = [] ∧ botDecide botState = some Action.take)
            ∨ (∃ c, c ∈ legalDefenses botState 1 i
                 ∧ (∀ x ∈ legalDefenses botState 1 i, cardR botState.trumpSuit c x)
                 ∧ botDecide botState = some (Action.defend i c)))) :=
  ((C9_bot_policy botState).2 1 (by decide)).2.1 ⟨by decide, by decide⟩

/-- Closed form of the drawing loop (fuel at least the deck size): it
moves `min (6 - hand.length) deck.length` cards from the deck's tail to
the hand's end, in reverse order. -/
lemma refillLoop_eq (fuel : Nat) : ∀ (deck hand : List Card), deck.length ≤ fuel →
    refillLoop fuel deck hand
      = (deck.take (deck.length - min (6 - hand.length) deck.length),
         hand ++ (deck.drop (deck.length - min (6 - hand.length) deck.length)).reverse) := by
  induction fuel with
  | zero =>
    intro deck hand h
    have hnil : deck = [] := List.eq_nil_of_length_eq_zero (Nat.le_zero.mp h)
    subst hnil
    simp [refillLoop]
  | succ n ih =>
    intro deck hand h
    unfold refillLoop
    split
    · rename_i hhand
      cases hd : deck.getLast? with
      | none =>
        have hnil : deck = [] := by
          cases deck with
          | nil => rfl
          | cons x xs => rw [List.getLast?_eq_getLast _ (by simp)] at hd; cases hd
        subst hnil
        simp
      | some c =>
        have hne : deck ≠ [] := by
          intro hnil; subst hnil; cases hd
        have hdeck : deck.dropLast ++ [c] = deck := List.dropLast_append_getLast? c hd
        have hlen : deck.dropLast.length = deck.length - 1 := List.length_dropLast deck
        have hpos : 1 ≤ deck.length := by
          cases deck with
          | nil => exact absurd rfl hne
          | cons x xs => simp
        dsimp only
        rw [ih deck.dropLast (hand ++ [c]) (by omega)]
        have hm : min (6 - (hand ++ [c]).length) deck.dropLast.length
            = min (6 - hand.length) deck.length - 1 := by
          rw [List.length_append, hlen]
          simp only [List.length_cons, List.length_nil]
          omega
        rw [hm]
        have hmle : 1 ≤ min (6 - hand.length) deck.length := by omega
        have hidx : deck.dropLast.length - (min (6 - hand.length) deck.length - 1)
            = deck.length - min (6 - hand.length) deck.length := by omega
        rw [hidx]
        have hle2 : deck.length - min (6 - hand.length) deck.length ≤ deck.dropLast.length := by
          omega
        rw [Prod.mk.injEq]
        constructor
        · rw [List.dropLast_eq_take, List.take_take]
          congr 1
          omega
        · have hsplit : deck.drop (deck.length - min (6 - hand.length) deck.length)
              = deck.dropLast.drop (deck.length - min (6 - hand.length) deck.length) ++ [c] := by
            set k := deck.length - min (6 - hand.length) deck.length with hk
            calc deck.drop k = (deck.dropLast ++ [c]).drop k := by rw [hdeck]
              _ = deck.dropLast.drop k ++ [c] := List.drop_append_of_le_length hle2
          rw [hsplit, List.reverse_append]
          simp
    · rename_i hhand
      have hm : min (6 - hand.length) deck.length = 0 := by omega
      rw [hm]
      simp

/-- Dealing a fresh 6-card hand pops the last six cards of the deck. -/
lemma refillLoop_full (deck : List Card) (h6 : 6 ≤ deck.length) :
    refillLoop deck.length deck []
      = (deck.take (deck.length - 6), (deck.drop (deck.length - 6)).reverse) := by
  rw [refillLoop_eq deck.length deck [] (le_refl _)]
  have hm : min (6 - ([] : List Card).length) deck.length = 6 := by
    simp only [List.length_nil, Nat.sub_zero]
    omega
  rw [hm]
  simp

lemma startGame_fields (d : List Card) (hid bid : String) (h36 : d.length = 36) :
    (startGameFromDeck d hid bid).deck = d.take 24
    ∧ (startGameFromDeck d hid bid).player0.hand
        = sortHand (d.drop 30).reverse (d.getLastD ⟨.spades, .r6⟩).suit
    ∧ (startGameFromDeck d hid bid).trumpCard = d.getLastD ⟨.spades, .r6⟩
    ∧ (startGameFromDeck d hid bid).attacker = 0
    ∧ (startGameFromDeck d hid bid).defender = 1 := by
  have e1 : refillLoop d.length d [] = (d.take 30, (d.drop 30).reverse) := by
    rw [refillLoop_full d (by omega)]
    rw [h36]
  have e2 : refillLoop (d.take 30).length (d.take 30) []
      = (d.take 24, ((d.take 30).drop 24).reverse) := by
    rw [refillLoop_full (d.take 30) (by rw [List.length_take]; omega)]
    rw [List.length_take, h36]
    norm_num [List.take_take]
  unfold startGameFromDeck
  try dsimp only
  unfold refillHands
  try dsimp only
  unfold refillStep
  try dsimp only
  simp only [GameState.setHand, GameState.player, reduceIte, Fin.one_eq_zero_iff,
    OfNat.ofNat_ne_one, if_false]
  try dsimp only
  rw [e1]
  try dsimp only
  simp only [reduceIte, Fin.one_eq_zero_iff, OfNat.ofNat_ne_one, if_false]
  try dsimp only
  rw [e2]
  refine ⟨?_, ?_, ?_, ?_, ?_⟩ <;> first | rfl | trivial

/-- C10: after `startGame` (for any shuffled 36-card deck) the trump card
— recorded from the last position of the shuffled deck — is the first
card popped during dealing: it lands in player 0's (the attacker's) hand,
it is no longer in the 24-card draw pile, and the `trumpCard` field holds
only a copy of it. -/
theorem C10_trump_card_dealt (d : List Card) (hid bid : String)
    (hd : d.Perm makeDeck) :
    (startGameFromDeck d hid bid).deck.length = 24
    ∧ (startGameFromDeck d hid bid).trumpCard ∈ (startGameFromDeck d hid bid).player0.hand
    ∧ (startGameFromDeck d hid bid).trumpCard ∉ (startGameFromDeck d hid bid).deck
    ∧ (startGameFromDeck d hid bid).attacker = 0 := by
  have h36 : d.length = 36 := by rw [hd.length_eq]; rfl
  have hnd : d.Nodup := hd.nodup_iff.mpr (by decide)
  obtain ⟨hdeck, hhand, htr, hatt, hdef⟩ := startGame_fields d hid bid h36
  have hne : d ≠ [] := by
    intro h
    rw [h] at h36
    cases h36
  have h1 : d.getLast? = some (d.getLast hne) := List.getLast?_eq_getLast d hne
  have h2 : d.getLastD ⟨.spades, .r6⟩ = d.getLast hne := by
    rw [List.getLastD_eq_getLast?, h1]
    rfl
  obtain ⟨ys, hys⟩ := List.getLast?_eq_some_iff.mp h1
  have hyslen : ys.length = 35 := by
    rw [hys] at h36
    simp at h36
    omega
  have ha : d = ys ++ [d.getLastD ⟨.spades, .r6⟩] := by
    rw [h2]
    exact hys
  have hmem30 : d.getLastD ⟨.spades, .r6⟩ ∈ d.drop 30 := by
    have hsplit : d.drop 30 = ys.drop 30 ++ [d.getLastD ⟨.spades, .r6⟩] := by
      conv_lhs => rw [ha]
      exact List.drop_append_of_le_length (by omega)
    rw [hsplit]
    simp
  refine ⟨?_, ?_, ?_, ?_⟩
  · rw [hdeck, List.length_take, h36]
    omega
  · rw [htr, hhand]
    unfold sortHand
    apply (List.perm_insertionSort _ _).mem_iff.mpr
    rw [List.mem_reverse]
    exact hmem30
  · rw [htr, hdeck]
    intro hin
    have hmem24 : d.getLastD ⟨.spades, .r6⟩ ∈ d.drop 24 := by
      apply List.mem_of_mem_drop (n := 6)
      rw [List.drop_drop]
      exact hmem30
    have hsplit : d.take 24 ++ d.drop 24 = d := List.take_append_drop 24 d
    have hnd2 : (d.take 24 ++ d.drop 24).Nodup := by rw [hsplit]; exact hnd
    exact (List.nodup_append.mp hnd2).2.2 hin hmem24
  · exact hatt

theorem C10_trump_card_dealt_witness :
    makeDeck.Perm makeDeck
    ∧ (startGameFromDeck makeDeck "p" "b").deck.length = 24
    ∧ (startGameFromDeck makeDeck "p" "b").trumpCard
        ∈ (startGameFromDeck makeDeck "p" "b").player0.hand
    ∧ (startGameFromDeck makeDeck "p" "b").trumpCard
        ∉ (startGameFromDeck makeDeck "p" "b").deck
    ∧ (startGameFromDeck makeDeck "p" "b").attacker = 0 :=
  ⟨List.Perm.refl _,
    (C10_trump_card_dealt makeDeck "p" "b" (List.Perm.refl _)).1,
    (C10_trump_card_dealt makeDeck "p" "b" (List.Perm.refl _)).2.1,
    (C10_trump_card_dealt makeDeck "p" "b" (List.Perm.refl _)).2.2.1,
    (C10_trump_card_dealt makeDeck "p" "b" (List.Perm.refl _)).2.2.2⟩

end Durak
